import Mathlib

/-!
Verification of the SciDataExtractor image-processing core
(`src/backend/image_processor.py`, with the curve-smoothing methods of
`src/backend/ai_assistant.py`).

The Python code is shallowly embedded: machine floats are modelled by exact
rationals (`ℚ`), numpy arrays by lists, raised exceptions by `Except`/`Option`
results, and the mutable `ImageProcessor` object by an explicit `Processor`
state record.  Library primitives that are external to the repository
(OpenCV connected components, skimage skeletonization, scipy's
`savgol_filter`) are either taken as parameters of the embedded pipeline or
modelled from their documented behaviour, as noted at each definition.

The file is organised as definitions first, then the theorems settling the
claims C1-C10 together with their helper lemmas and witnesses.
-/

/-! ## Calibration (`ImageProcessor.set_calibration`, `pixel_to_physical`,
`is_in_plot_region`)

The Python object initializes `calibration_set = False` and the scale/offset
fields to `None`.  The unset fields are modelled by a default value `0`
guarded by the `calibration_set` flag, which is exactly how the Python code
guards every use of those fields. -/

structure Processor where
  calibration_set : Bool := false
  x_scale : ℚ := 0
  y_scale : ℚ := 0
  x_offset : ℚ := 0
  y_offset : ℚ := 0
  x_pixel_start : ℚ := 0
  y_pixel_start : ℚ := 0
  plot_region : Option (ℚ × ℚ × ℚ × ℚ) := none
  deriving Repr, DecidableEq

/-- Embeds `ImageProcessor.set_calibration`.  The Python method mutates
`self` field by field and raises `ValueError` mid-way when an axis pixel span
is degenerate; the embedding returns the state as mutated so far together
with `some errorMessage` in that case, and the fully updated state with
`none` on success.  `plot_region` stores `(x_min, x_max, y_min, y_max)`. -/
def set_calibration (p : Processor)
    (x_axis_pixels : (ℚ × ℚ) × (ℚ × ℚ)) (x_axis_values : ℚ × ℚ)
    (y_axis_pixels : (ℚ × ℚ) × (ℚ × ℚ)) (y_axis_values : ℚ × ℚ) :
    Processor × Option String :=
  let ((x1_pixel, y1_pixel), (x2_pixel, y2_pixel)) := x_axis_pixels
  let (x1_value, x2_value) := x_axis_values
  let ((x3_pixel, y3_pixel), (x4_pixel, y4_pixel)) := y_axis_pixels
  let (y1_value, y2_value) := y_axis_values
  let pixel_distance_x := x2_pixel - x1_pixel
  let value_distance_x := x2_value - x1_value
  if |pixel_distance_x| < 1 then (p, some "X 轴的两个点太接近，无法校准") else
  let p1 := { p with
      x_scale := value_distance_x / pixel_distance_x,
      x_offset := x1_value,
      x_pixel_start := x1_pixel }
  let pixel_distance_y := y4_pixel - y3_pixel
  let value_distance_y := y2_value - y1_value
  if |pixel_distance_y| < 1 then (p1, some "Y 轴的两个点太接近，无法校准") else
  let p2 := { p1 with
      y_scale := value_distance_y / pixel_distance_y,
      y_offset := y1_value,
      y_pixel_start := y3_pixel,
      plot_region := some
        (min (min x1_pixel x2_pixel) (min x3_pixel x4_pixel) - 10,
         max (max x1_pixel x2_pixel) (max x3_pixel x4_pixel) + 10,
         min (min y1_pixel y2_pixel) (min y3_pixel y4_pixel) - 10,
         max (max y1_pixel y2_pixel) (max y3_pixel y4_pixel) + 10),
      calibration_set := true }
  (p2, none)

/-- The affine pixel-to-physical formula of `ImageProcessor.pixel_to_physical`
(the part after the calibration guard). -/
def pixel_to_physical_raw (p : Processor) (px py : ℚ) : ℚ × ℚ :=
  ((px - p.x_pixel_start) * p.x_scale + p.x_offset,
   (py - p.y_pixel_start) * p.y_scale + p.y_offset)

/-- Embeds `ImageProcessor.pixel_to_physical`, including the `ValueError`
raised when calibration has not been set. -/
def pixel_to_physical (p : Processor) (px py : ℚ) : Except String (ℚ × ℚ) :=
  if p.calibration_set then .ok (pixel_to_physical_raw p px py)
  else .error "请先设置校准参数"

/-- Embeds `ImageProcessor.is_in_plot_region`. -/
def is_in_plot_region (p : Processor) (x y : ℚ) : Bool :=
  match p.plot_region with
  | none => true
  | some (xmin, xmax, ymin, ymax) =>
      decide (xmin ≤ x ∧ x ≤ xmax ∧ ymin ≤ y ∧ y ≤ ymax)

/-! ## Outlier removal (`ImageProcessor.remove_outliers`)

numpy operations are embedded over `ℚ`: `np.diff` as a `zipWith` on the tail,
`np.median` as sort-and-take-middle (averaging the two middle elements for an
even length), `np.abs` as `|·|`.  The float literals `1e-10` and `1.4826` of
the source are the exact rationals below. -/

def epsQ : ℚ := 1 / 10000000000

/-- `np.median` over rationals: sort ascending, middle element for odd
length, mean of the two middle elements for even length (0 on the empty
list, which the callers never hit). -/
def medianQ (l : List ℚ) : ℚ :=
  let s := l.insertionSort (· ≤ ·)
  let n := s.length
  if n = 0 then 0
  else if n % 2 = 1 then s.getD (n / 2) 0
  else (s.getD (n / 2 - 1) 0 + s.getD (n / 2) 0) / 2

/-- `slopes = np.diff(y_vals) / (np.diff(x_vals) + 1e-10)`. -/
def slopesQ (points : List (ℚ × ℚ)) : List ℚ :=
  List.zipWith (fun q p => (q.2 - p.2) / ((q.1 - p.1) + epsQ)) points.tail points

/-- `slope_changes = np.abs(np.diff(slopes))`. -/
def slopeChangesQ (points : List (ℚ × ℚ)) : List ℚ :=
  List.zipWith (fun b a => |b - a|) (slopesQ points).tail (slopesQ points)

/-- The outlier mask entry for point index `j`: the source sets
`outlier_mask[i + 1] = True` when `np.abs(slope_changes[i] - median_change) >
threshold * mad * 1.4826`. -/
def outlierFlag (changes : List ℚ) (med mad threshold : ℚ) : ℕ → Bool
  | 0 => false
  | i + 1 =>
    match changes.get? i with
    | some c => decide (|c - med| > threshold * mad * (14826 / 10000))
    | none => false

/-- `[p for i, p in enumerate(points) if not outlier_mask[i]]`: keep the
entries of `ps` whose mask bit is `false`. -/
def keepUnflagged {α : Type} : List α → List Bool → List α
  | [], _ => []
  | _ :: _, [] => []
  | p :: ps, b :: bs =>
      if b then keepUnflagged ps bs else p :: keepUnflagged ps bs

/-- Embeds `ImageProcessor.remove_outliers` (Python default
`threshold = 2.5`). -/
def remove_outliers (points : List (ℚ × ℚ)) (threshold : ℚ) :
    List (ℚ × ℚ) :=
  if points.length < 5 then points else
  let changes := slopeChangesQ points
  let median_change := medianQ changes
  let mad := medianQ (changes.map fun c => |c - median_change|)
  if mad < epsQ then points else
  let mask := (List.range points.length).map
    (outlierFlag changes median_change mad threshold)
  let cleaned := keepUnflagged points mask
  if cleaned.length > 3 then cleaned else points

/-- Modelled from the claim wording of C3: same slope-change/MAD flagging,
but with no guard for a vanishing MAD, and returning the original list only
when dropping would leave fewer than 3 points. -/
def remove_outliers_claim (points : List (ℚ × ℚ)) (threshold : ℚ) :
    List (ℚ × ℚ) :=
  if points.length < 5 then points else
  let changes := slopeChangesQ points
  let median_change := medianQ changes
  let mad := medianQ (changes.map fun c => |c - median_change|)
  let mask := (List.range points.length).map
    (outlierFlag changes median_change mad threshold)
  let cleaned := keepUnflagged points mask
  if cleaned.length < 3 then points else cleaned

/-! ## Color-range masks (`ImageProcessor.extract_curve` step 1 and
`ImageProcessor.create_mask_from_color`)

HSV channel values and tolerances are Python ints, embedded as `ℤ`.  A mask
is characterised by its per-channel lower/upper bounds
`((lh, ls, lv), (uh, us, uv))`; `cv2.inRange` tests each channel
inclusively. -/

/-- The bounds computed by `ImageProcessor.create_mask_from_color`. -/
def create_mask_bounds (h s v tolerance : ℤ) :
    (ℤ × ℤ × ℤ) × (ℤ × ℤ × ℤ) :=
  if s < 30 then
    ((0, 0, max 0 (v - tolerance)), (179, 100, min 255 (v + tolerance)))
  else
    let h_tol := min tolerance 15
    let s_tol := tolerance + 10
    let v_tol := tolerance + 20
    ((max 0 (h - h_tol), max 30 (s - s_tol), max 30 (v - v_tol)),
     (min 179 (h + h_tol), min 255 (s + s_tol), min 255 (v + v_tol)))

/-- The bounds computed by step 1 of `ImageProcessor.extract_curve`, whose
grayscale test is written `(s < 30 and v > 80) or (s < 30)` in the source. -/
def extract_curve_bounds (h s v tolerance : ℤ) :
    (ℤ × ℤ × ℤ) × (ℤ × ℤ × ℤ) :=
  if (s < 30 ∧ 80 < v) ∨ s < 30 then
    ((0, 0, max 0 (v - tolerance)), (179, 100, min 255 (v + tolerance)))
  else
    let h_tol := min tolerance 15
    let s_tol := tolerance + 10
    let v_tol := tolerance + 20
    ((max 0 (h - h_tol), max 30 (s - s_tol), max 30 (v - v_tol)),
     (min 179 (h + h_tol), min 255 (s + s_tol), min 255 (v + v_tol)))

/-- `cv2.inRange` membership for one HSV pixel: inclusive on each channel. -/
def inRangeHSV (bounds : (ℤ × ℤ × ℤ) × (ℤ × ℤ × ℤ)) (ph ps pv : ℤ) : Bool :=
  decide (bounds.1.1 ≤ ph ∧ ph ≤ bounds.2.1 ∧
    bounds.1.2.1 ≤ ps ∧ ps ≤ bounds.2.2.1 ∧
    bounds.1.2.2 ≤ pv ∧ pv ≤ bounds.2.2.2)

/-- Modelled from the claim wording of C6: in the grayscale case the H *and
S* ranges are wide open (the full channel ranges `[0,179]` and `[0,255]`)
and the V window is target ± tolerance; the chromatic case is as in the
code. -/
def mask_bounds_claim (h s v tolerance : ℤ) :
    (ℤ × ℤ × ℤ) × (ℤ × ℤ × ℤ) :=
  if s < 30 then
    ((0, 0, max 0 (v - tolerance)), (179, 255, min 255 (v + tolerance)))
  else
    let h_tol := min tolerance 15
    let s_tol := tolerance + 10
    let v_tol := tolerance + 20
    ((max 0 (h - h_tol), max 30 (s - s_tol), max 30 (v - v_tol)),
     (min 179 (h + h_tol), min 255 (s + s_tol), min 255 (v + v_tol)))

/-! ## Curve smoothing (`ImageProcessor.smooth_curve` and
`AIAssistant._apply_smoothing`)

`scipy.signal.savgol_filter(y, window, 2)` is external to the repository; it
is modelled from its documented behaviour by `savgol_filter_model` below:
it rejects an even window, a window larger than the data or a window not
exceeding the polynomial order (scipy raises `ValueError`, which
`smooth_curve` catches and turns into the unchanged input), and otherwise
computes the degree-2 least-squares fit of each centred window evaluated at
its centre, with the `interp` edge mode (the first/last `window//2` samples
take the values of the quadratic fitted to the first/last full window). -/

/-- Least-squares quadratic fit of `ys` against positions `0, 1, ...`,
evaluated at position `p` (Cramer's rule on the 3×3 normal equations). -/
def polyfit2Eval (ys : List ℚ) (p : ℚ) : ℚ :=
  let n := ys.length
  let xs := (List.range n).map (fun i => (i : ℚ))
  let s0 : ℚ := n
  let s1 := xs.sum
  let s2 := (xs.map (· ^ 2)).sum
  let s3 := (xs.map (· ^ 3)).sum
  let s4 := (xs.map (· ^ 4)).sum
  let t0 := ys.sum
  let t1 := (List.zipWith (fun x y => x * y) xs ys).sum
  let t2 := (List.zipWith (fun x y => x ^ 2 * y) xs ys).sum
  let dd := s0 * (s2 * s4 - s3 * s3) - s1 * (s1 * s4 - s3 * s2)
    + s2 * (s1 * s3 - s2 * s2)
  let da := t0 * (s2 * s4 - s3 * s3) - s1 * (t1 * s4 - s3 * t2)
    + s2 * (t1 * s3 - s2 * t2)
  let db := s0 * (t1 * s4 - t2 * s3) - t0 * (s1 * s4 - s3 * s2)
    + s2 * (s1 * t2 - t1 * s2)
  let dc := s0 * (s2 * t2 - s3 * t1) - s1 * (s1 * t2 - s3 * t0)
    + t0 * (s1 * s3 - s2 * s2)
  (da / dd) + (db / dd) * p + (dc / dd) * p ^ 2

/-- The degree-2 Savitzky–Golay filter values (odd window `w ≤ ys.length`
assumed by the caller); one output per input sample. -/
def savgol2 (ys : List ℚ) (window : ℕ) : List ℚ :=
  let n := ys.length
  let m := window / 2
  (List.range n).map fun i =>
    if i < m then polyfit2Eval (ys.take window) (i : ℚ)
    else if n ≤ i + m then
      polyfit2Eval (ys.drop (n - window)) ((i : ℚ) - ((n - window : ℕ) : ℚ))
    else polyfit2Eval ((ys.drop (i - m)).take window) (m : ℚ)

/-- Modelled from the spec: `scipy.signal.savgol_filter(y, window, 2)`.
`none` models the `ValueError` scipy raises for an invalid window (even,
larger than the data, or not exceeding the polynomial order 2). -/
def savgol_filter_model (ys : List ℚ) (window : ℕ) : Option (List ℚ) :=
  if window % 2 = 0 ∨ ys.length < window ∨ window ≤ 2 then none
  else some (savgol2 ys window)

/-- `if window % 2 == 0: window += 1` — force a window odd. -/
def oddify (n : ℕ) : ℕ := if n % 2 = 0 then n + 1 else n

/-- Embeds `ImageProcessor.smooth_curve` with the Savitzky–Golay stage as a
parameter `sg`; the `try/except` of the source corresponds to the `none`
branch returning the input unchanged. -/
def smoothCurveWith (sg : List ℚ → ℕ → Option (List ℚ))
    (points : List (ℚ × ℚ)) (window : ℕ) : List (ℚ × ℚ) :=
  if points.length < window then points else
  let x_vals := points.map Prod.fst
  let y_vals := points.map Prod.snd
  let w2 := min (oddify window) (points.length - 2)
  if w2 < 3 then points else
  match sg y_vals w2 with
  | some y_smooth => x_vals.zip y_smooth
  | none => points

/-- `ImageProcessor.smooth_curve` (Python default `window = 5`). -/
def smooth_curve (points : List (ℚ × ℚ)) (window : ℕ) : List (ℚ × ℚ) :=
  smoothCurveWith savgol_filter_model points window

/-- Sort a point list ascending by x, as Python's
`sorted(points, key=lambda p: p['x'])` / `list.sort(key=lambda p: p[0])`. -/
def sortByX (ps : List (ℚ × ℚ)) : List (ℚ × ℚ) :=
  ps.insertionSort (fun a b => a.1 ≤ b.1)

/-- The centered moving average of `AIAssistant._apply_smoothing`'s
`moving_average` branch at index `i`, window half-width `half_window`:
the plain mean of the y-values in the index window clipped to the list. -/
def movingAvgAt (ps : List (ℚ × ℚ)) (half_window : ℕ) (i : ℕ) : ℚ :=
  let start_idx := i - half_window
  let end_idx := min ps.length (i + half_window + 1)
  let window_points := (ps.drop start_idx).take (end_idx - start_idx)
  (window_points.map Prod.snd).sum / window_points.length

/-- The inverse-distance-weighted average of `AIAssistant._apply_smoothing`'s
`savitzky_golay` branch at index `i`: weights `1/(1+|j-i|)` over the clipped
index window. -/
def invDistAt (ps : List (ℚ × ℚ)) (half_window : ℕ) (i : ℕ) : ℚ :=
  let start_idx := i - half_window
  let end_idx := min ps.length (i + half_window + 1)
  let window_points := (ps.drop start_idx).take (end_idx - start_idx)
  let weights := (List.range' start_idx (end_idx - start_idx)).map
    (fun j => 1 / (1 + |(j : ℚ) - (i : ℚ)|))
  let total_weight := weights.sum
  (List.zipWith (fun q w => q.2 * w) window_points weights).sum / total_weight

/-- Exponential smoothing recursion: each smoothed y is
`alpha * y_i + (1 - alpha) * previous smoothed y`. -/
def expSmoothAux (alpha : ℚ) : ℚ → List (ℚ × ℚ) → List (ℚ × ℚ)
  | _, [] => []
  | prev_y, q :: rest =>
      let y := alpha * q.2 + (1 - alpha) * prev_y
      (q.1, y) :: expSmoothAux alpha y rest

/-- Exponential smoothing of a point list: the first point is kept
unchanged, as in `AIAssistant._apply_smoothing`'s `exponential` branch. -/
def exp_smooth (alpha : ℚ) (ps : List (ℚ × ℚ)) : List (ℚ × ℚ) :=
  match ps with
  | [] => []
  | q :: rest => q :: expSmoothAux alpha q.2 rest

/-- The centered moving average over a whole list with odd window `w`. -/
def centered_moving_average (ps : List (ℚ × ℚ)) (w : ℕ) : List (ℚ × ℚ) :=
  (List.range ps.length).map fun i =>
    ((ps.getD i (0, 0)).1, movingAvgAt ps (w / 2) i)

/-- The inverse-distance-weighted average over a whole list with odd
window `w`. -/
def inverse_distance_average (ps : List (ℚ × ℚ)) (w : ℕ) : List (ℚ × ℚ) :=
  (List.range ps.length).map fun i =>
    ((ps.getD i (0, 0)).1, invDistAt ps (w / 2) i)

/-- Embeds `AIAssistant._apply_smoothing` (`src/backend/ai_assistant.py`):
sorts by x, dispatches on the method name, clamps the window to a third of
the data (forced odd) or the smoothing factor to `[0.1, 0.9]`, and defaults
to a window-5 moving average for an unknown method.  In exact arithmetic
none of the branch bodies can fail, so the `except` fallback of the source
is unreachable here. -/
def apply_smoothing (points : List (ℚ × ℚ)) (method : String)
    (window_size : ℕ) (smoothing_factor : ℚ) : List (ℚ × ℚ) :=
  if points.length < 3 then points else
  let sorted_points := sortByX points
  if method = "moving_average" then
    let ws := oddify (max 3 (min window_size (sorted_points.length / 3)))
    (List.range sorted_points.length).map fun i =>
      ((sorted_points.getD i (0, 0)).1, movingAvgAt sorted_points (ws / 2) i)
  else if method = "savitzky_golay" then
    let ws := oddify (max 5 (min window_size (sorted_points.length / 3)))
    (List.range sorted_points.length).map fun i =>
      ((sorted_points.getD i (0, 0)).1, invDistAt sorted_points (ws / 2) i)
  else if method = "exponential" then
    let alpha := max (1/10) (min (9/10) smoothing_factor)
    exp_smooth alpha sorted_points
  else
    (List.range sorted_points.length).map fun i =>
      ((sorted_points.getD i (0, 0)).1, movingAvgAt sorted_points (5 / 2) i)

instance : IsTotal (ℚ × ℚ) (fun a b => a.1 ≤ b.1) :=
  ⟨fun a b => le_total a.1 b.1⟩

instance : IsTrans (ℚ × ℚ) (fun a b => a.1 ≤ b.1) :=
  ⟨fun _ _ _ h1 h2 => le_trans h1 h2⟩

/-! ## Curve extraction pipeline (`ImageProcessor.extract_curve`,
steps 3–9)

The OpenCV/skimage stages that precede step 3 (color mask and morphology)
produce the connected components of the filtered mask; they and the
skeletonization are external library calls, so the embedded pipeline takes
the labelled components (each a pixel list, as produced by
`cv2.connectedComponentsWithStats`) and the skeletonization function as
parameters and embeds everything the source does with them: the area
filter `area ≥ max(50, max_area * 0.1)`, the `< 10` foreground-pixel guard,
the empty-skeleton guard, the plot-region filter, per-column median-row
extraction with stride downsampling, the pixel→physical map, the sort by
x, and the outlier-removal and smoothing stages. -/

/-- Steps 6 of `extract_curve`: group the skeleton pixels `(x, y)` by
column `x`, sort the columns, keep every `step`-th column and take the
median row of each kept column. -/
def columnExtract (pixels : List (ℤ × ℤ)) (downsample_factor : ℕ) :
    List (ℚ × ℚ) :=
  let sorted_x := (pixels.map Prod.fst).dedup.insertionSort (· ≤ ·)
  let step := max 1 downsample_factor
  (sorted_x.enum.filter fun ix => ix.1 % step = 0).map fun ix =>
    ((ix.2 : ℚ),
      medianQ ((pixels.filter fun q => decide (q.1 = ix.2)).map
        fun q => (q.2 : ℚ)))

/-- Step 3 of `extract_curve`: keep the components whose area is at least
`max(50, max_area * 0.1)`. -/
def survivingComponents (comps : List (List (ℤ × ℤ))) :
    List (List (ℤ × ℤ)) :=
  let areas := comps.map List.length
  let max_area := areas.foldr max 0
  let min_area : ℚ := max 50 ((max_area : ℚ) * (1/10))
  comps.filter fun c => decide (min_area ≤ (c.length : ℚ))

/-- The foreground pixels of the filtered mask: the union of the surviving
components (`cv2` components partition the mask, so the `dedup` is the
bitmap semantics of writing each component into `filtered_mask`). -/
def maskPixels (comps : List (List (ℤ × ℤ))) : List (ℤ × ℤ) :=
  (survivingComponents comps).join.dedup

/-- Steps 3–9 of `ImageProcessor.extract_curve` (from the
connected-component analysis on): `comps` are the non-background components
of the morphologically cleaned mask, `skeletonize` the external thinning
primitive.  Python's `raise ValueError` when uncalibrated is the `.error`
result; every "nothing found" case is the successful `.ok []`. -/
def extract_curve_tail (p : Processor) (comps : List (List (ℤ × ℤ)))
    (skeletonize : List (ℤ × ℤ) → List (ℤ × ℤ))
    (downsample_factor : ℕ) (smooth : Bool) :
    Except String (List (ℚ × ℚ)) :=
  if ¬ p.calibration_set then .error "请先设置校准参数" else
  if comps.isEmpty then .ok [] else
  let mask_pixels := maskPixels comps
  if mask_pixels.length < 10 then .ok [] else
  let skel := skeletonize mask_pixels
  if skel.isEmpty then .ok [] else
  let valid := skel.filter fun q =>
    is_in_plot_region p (q.1 : ℚ) (q.2 : ℚ)
  if valid.isEmpty then .ok [] else
  let pixel_points := columnExtract valid downsample_factor
  let physical_points := pixel_points.map fun q =>
    pixel_to_physical_raw p q.1 q.2
  let sorted_physical := sortByX physical_points
  let after_outliers := if 5 < sorted_physical.length then
    remove_outliers sorted_physical (5/2) else sorted_physical
  let final := if smooth ∧ 10 < after_outliers.length then
    smooth_curve after_outliers 5 else after_outliers
  .ok final

/-! ## Momentum tracing (`ImageProcessor._momentum_trace`)

Pixel coordinates are `ℤ` pairs; the skeleton is the list of its set
pixels; the visited bitmap is the list of visited pixels.  The momentum
vector and the candidate scoring of the source are floating-point
(`np.linalg.norm`, a dot product, and the fixed weights 0.7/0.3 and
0.6/0.4); they are abstracted into a `Scorer`: an arbitrary momentum state
with an arbitrary score and update function.  Every property claimed for
the tracer (termination, the iteration budget, no revisits, the expanding
radius search, determinism) is proved for *every* scorer, hence in
particular for the one the floats implement.  The fixed score `0.5` of the
expanded-radius candidates is kept concrete, as is the tie-breaking rule:
Python's stable descending sort followed by taking the head picks the
first candidate of maximal score in enumeration order, which `pickBest`
implements directly. -/

structure Scorer (σ : Type) where
  init : σ
  score : σ → ℤ × ℤ → ℚ
  update : σ → ℤ × ℤ → σ

/-- The 8-neighborhood direction vectors, in the enumeration order of the
source. -/
def directions8 : List (ℤ × ℤ) :=
  [(1, 0), (1, 1), (0, 1), (-1, 1), (-1, 0), (-1, -1), (0, -1), (1, -1)]

/-- `0 <= x < w and 0 <= y < h`. -/
def inGrid (w h : ℤ) (q : ℤ × ℤ) : Bool :=
  decide (0 ≤ q.1 ∧ q.1 < w ∧ 0 ≤ q.2 ∧ q.2 < h)

/-- `for dx in range(-r, r+1): for dy in range(-r, r+1)` skipping `(0,0)`,
in enumeration order. -/
def squareOffsets (r : ℕ) : List (ℤ × ℤ) :=
  ((List.range (2 * r + 1)).map fun a : ℕ => (a : ℤ) - r).flatMap fun dx =>
    ((List.range (2 * r + 1)).map fun a : ℕ => (a : ℤ) - r).filterMap
      fun dy => if dx = 0 ∧ dy = 0 then none else some (dx, dy)

/-- One step of the best-candidate selection: Python sorts the candidates
by score descending (stably) and takes the first, i.e. the first candidate
of maximal score; the fold keeps the current best and replaces it only on
a strictly greater score. -/
def pickStep (acc : Option ((ℤ × ℤ) × ℚ × (ℤ × ℤ)))
    (c : (ℤ × ℤ) × ℚ × (ℤ × ℤ)) : Option ((ℤ × ℤ) × ℚ × (ℤ × ℤ)) :=
  match acc with
  | none => some c
  | some b => if b.2.1 < c.2.1 then some c else some b

def pickBest (cands : List ((ℤ × ℤ) × ℚ × (ℤ × ℤ))) :
    Option ((ℤ × ℤ) × ℚ × (ℤ × ℤ)) :=
  cands.foldl pickStep none

/-- The unvisited in-grid skeleton 8-neighbors of `(x, y)`, with their
scores and direction vectors. -/
def neighborCands {σ : Type} (sc : Scorer σ) (m : σ) (w h : ℤ)
    (skel visited : List (ℤ × ℤ)) (x y : ℤ) :
    List ((ℤ × ℤ) × ℚ × (ℤ × ℤ)) :=
  directions8.filterMap fun d =>
    let n := (x + d.1, y + d.2)
    if inGrid w h n ∧ n ∈ skel ∧ n ∉ visited then
      some (n, sc.score m d, d)
    else none

/-- The unvisited in-grid skeleton pixels of the radius-`r` square around
`(x, y)`, all scored `0.5`. -/
def expandCandsAt (w h : ℤ) (skel visited : List (ℤ × ℤ)) (x y : ℤ)
    (r : ℕ) : List ((ℤ × ℤ) × ℚ × (ℤ × ℤ)) :=
  (squareOffsets r).filterMap fun d =>
    let n := (x + d.1, y + d.2)
    if inGrid w h n ∧ n ∈ skel ∧ n ∉ visited then
      some (n, 1/2, d)
    else none

/-- The expanding-radius search: try each radius in order and stop at the
first radius that produces candidates (`found = True; break`). -/
def expandLoop (w h : ℤ) (skel visited : List (ℤ × ℤ)) (x y : ℤ) :
    List ℕ → List ((ℤ × ℤ) × ℚ × (ℤ × ℤ))
  | [] => []
  | r :: rest =>
      let c := expandCandsAt w h skel visited x y r
      if c.isEmpty then expandLoop w h skel visited x y rest else c

/-- The tracer loop of `_momentum_trace`, parameterised by the radius list
(the source's `range(2, 5)` is `[2, 3, 4]`): check the iteration budget
(`fuel`), the bounds and the visited bitmap, record the current pixel,
collect the 8-neighbor candidates (falling back to the expanding-radius
search), pick the best and recurse with the updated momentum. -/
def traceLoopR {σ : Type} (radii : List ℕ) (sc : Scorer σ) (w h : ℤ)
    (skel : List (ℤ × ℤ)) :
    ℕ → (ℤ × ℤ) → σ → List (ℤ × ℤ) → List (ℤ × ℤ) → List (ℤ × ℤ)
  | 0, _, _, _, acc => acc.reverse
  | fuel + 1, current, momentum, visited, acc =>
      if ¬ inGrid w h current then acc.reverse
      else if current ∈ visited then acc.reverse
      else
        let visited' := current :: visited
        let acc' := current :: acc
        let c8 := neighborCands sc momentum w h skel visited'
          current.1 current.2
        let cands := if c8.isEmpty then
          expandLoop w h skel visited' current.1 current.2 radii else c8
        match pickBest cands with
        | none => acc'.reverse
        | some best =>
            traceLoopR radii sc w h skel fuel best.1
              (sc.update momentum best.2.2) visited' acc'

/-- Embeds `ImageProcessor._momentum_trace`: iteration budget
`2 × (skeleton pixel count)`, expanding radii `range(2, 5) = [2, 3, 4]`. -/
def momentum_trace {σ : Type} (sc : Scorer σ) (w h : ℤ)
    (skel : List (ℤ × ℤ)) (start : ℤ × ℤ) : List (ℤ × ℤ) :=
  traceLoopR [2, 3, 4] sc w h skel (2 * skel.length) start sc.init [] []

/-- Modelled from the claim wording of C5: identical to `momentum_trace`
but searching the expanded radius from 2 to 5 pixels inclusive. -/
def momentum_trace_claim {σ : Type} (sc : Scorer σ) (w h : ℤ)
    (skel : List (ℤ × ℤ)) (start : ℤ × ℤ) : List (ℤ × ℤ) :=
  traceLoopR [2, 3, 4, 5] sc w h skel (2 * skel.length) start sc.init [] []

/-- A trivial concrete scorer used to instantiate the tracer theorems. -/
def unitScorer : Scorer Unit :=
  { init := (), score := fun _ _ => 0, update := fun _ _ => () }

/-! ## Theorems -/

/-- C1: for every calibration accepted by `set_calibration` (both axis pixel
spans at least 1 pixel, scales nonzero), `pixel_to_physical` is an affine map
per axis, and it sends each axis's two defining calibration pixels exactly to
that axis's two defining physical values: the X-axis pixel `x1` maps to
`x1_value`, `x2` to `x2_value`, and the Y-axis pixels `y3`, `y4` map to
`y1_value`, `y2_value` respectively (exactly, in rational arithmetic). -/
theorem calibration_maps_defining_points
    (p p' : Processor) (x1p y1p x2p y2p x3p y3p x4p y4p x1v x2v y1v y2v : ℚ)
    (hacc : set_calibration p ((x1p, y1p), (x2p, y2p)) (x1v, x2v)
        ((x3p, y3p), (x4p, y4p)) (y1v, y2v) = (p', none))
    (hxs : x2v - x1v ≠ 0) (hys : y2v - y1v ≠ 0) :
    pixel_to_physical p' x1p y3p = .ok (x1v, y1v) ∧
    pixel_to_physical p' x2p y4p = .ok (x2v, y2v) ∧
    ∃ aX bX aY bY : ℚ, ∀ px py : ℚ,
      pixel_to_physical p' px py = .ok (aX * px + bX, aY * py + bY) := by
  unfold set_calibration at hacc
  simp only at hacc
  split_ifs at hacc with h1 h2
  · exact absurd (congrArg Prod.snd hacc) (by simp)
  · exact absurd (congrArg Prod.snd hacc) (by simp)
  have hdx : x2p - x1p ≠ 0 := by
    intro h; rw [h] at h1; simp at h1
  have hdy : y4p - y3p ≠ 0 := by
    intro h; rw [h] at h2; simp at h2
  have hp' : p' = { p with
      x_scale := (x2v - x1v) / (x2p - x1p),
      x_offset := x1v,
      x_pixel_start := x1p,
      y_scale := (y2v - y1v) / (y4p - y3p),
      y_offset := y1v,
      y_pixel_start := y3p,
      plot_region := some
        (min (min x1p x2p) (min x3p x4p) - 10,
         max (max x1p x2p) (max x3p x4p) + 10,
         min (min y1p y2p) (min y3p y4p) - 10,
         max (max y1p y2p) (max y3p y4p) + 10),
      calibration_set := true } := by
    have := congrArg (fun q => q.1) hacc
    simpa using this.symm
  subst hp'
  refine ⟨?_, ?_, ?_⟩
  · simp [pixel_to_physical, pixel_to_physical_raw]
  · simp only [pixel_to_physical, pixel_to_physical_raw, if_pos]
    congr 2
    · field_simp
    · field_simp
  · refine ⟨(x2v - x1v) / (x2p - x1p),
      -(x1p * ((x2v - x1v) / (x2p - x1p))) + x1v,
      (y2v - y1v) / (y4p - y3p),
      -(y3p * ((y2v - y1v) / (y4p - y3p))) + y1v, fun px py => ?_⟩
    simp only [pixel_to_physical, pixel_to_physical_raw, if_pos]
    congr 2 <;> ring

/-- Witness for C1 at the calibration used by the repository's own
`__main__` test: X axis pixels (100,400)-(500,400) with values 0, 1/2 and
Y axis pixels (100,400)-(100,50) with values 0, 300. -/
theorem calibration_maps_defining_points_witness :
    pixel_to_physical
      (set_calibration {} ((100, 400), (500, 400)) (0, 1/2)
        ((100, 400), (100, 50)) (0, 300)).1 100 400 = .ok (0, 0) ∧
    pixel_to_physical
      (set_calibration {} ((100, 400), (500, 400)) (0, 1/2)
        ((100, 400), (100, 50)) (0, 300)).1 500 50 = .ok (1/2, 300) := by
  have h := calibration_maps_defining_points {}
    (set_calibration {} ((100, 400), (500, 400)) (0, 1/2)
      ((100, 400), (100, 50)) (0, 300)).1
    100 400 500 400 100 400 100 50 0 (1/2) 0 300
    (by simp only [set_calibration]; norm_num)
    (by norm_num) (by norm_num)
  exact ⟨h.1, h.2.1⟩

/-- C4: starting from an uncalibrated processor, `set_calibration` reports a
configuration error exactly when the pixel span of the X axis or of the Y
axis is strictly less than 1 pixel; every pair of spans strictly greater
than 1 is accepted; and on error the processor remains uncalibrated, so
`pixel_to_physical` keeps failing. -/
theorem set_calibration_error_iff
    (p : Processor) (x1p y1p x2p y2p x3p y3p x4p y4p x1v x2v y1v y2v : ℚ)
    (hun : p.calibration_set = false) :
    ((set_calibration p ((x1p, y1p), (x2p, y2p)) (x1v, x2v)
        ((x3p, y3p), (x4p, y4p)) (y1v, y2v)).2 ≠ none ↔
      |x2p - x1p| < 1 ∨ |y4p - y3p| < 1) ∧
    (1 < |x2p - x1p| → 1 < |y4p - y3p| →
      (set_calibration p ((x1p, y1p), (x2p, y2p)) (x1v, x2v)
        ((x3p, y3p), (x4p, y4p)) (y1v, y2v)).2 = none) ∧
    ((set_calibration p ((x1p, y1p), (x2p, y2p)) (x1v, x2v)
        ((x3p, y3p), (x4p, y4p)) (y1v, y2v)).2 ≠ none →
      (set_calibration p ((x1p, y1p), (x2p, y2p)) (x1v, x2v)
        ((x3p, y3p), (x4p, y4p)) (y1v, y2v)).1.calibration_set = false ∧
      ∀ px py : ℚ, ∃ e, pixel_to_physical
        (set_calibration p ((x1p, y1p), (x2p, y2p)) (x1v, x2v)
          ((x3p, y3p), (x4p, y4p)) (y1v, y2v)).1 px py = .error e) := by
  unfold set_calibration
  simp only
  split_ifs with h1 h2
  · refine ⟨by simp [h1], by intro hx _; exfalso; linarith, ?_⟩
    intro _
    exact ⟨hun, fun px py =>
      ⟨"请先设置校准参数", by simp [pixel_to_physical, hun]⟩⟩
  · refine ⟨by simp [h2], by intro _ hy; exfalso; linarith, ?_⟩
    intro _
    exact ⟨hun, fun px py =>
      ⟨"请先设置校准参数", by simp [pixel_to_physical, hun]⟩⟩
  · refine ⟨by simp [h1, h2], fun _ _ => rfl, ?_⟩
    intro h
    simp at h

/-- Witness for C4: an uncalibrated processor, an X axis span of 0 pixels
(rejected) and of 400 pixels (accepted together with a Y span of 350). -/
theorem set_calibration_error_iff_witness :
    ((set_calibration {} ((100, 400), (100, 400)) (0, 1/2)
        ((100, 400), (100, 50)) (0, 300)).2 ≠ none) ∧
    ((set_calibration {} ((100, 400), (500, 400)) (0, 1/2)
        ((100, 400), (100, 50)) (0, 300)).2 = none) ∧
    (set_calibration {} ((100, 400), (100, 400)) (0, 1/2)
        ((100, 400), (100, 50)) (0, 300)).1.calibration_set = false := by
  have h1 := set_calibration_error_iff {} 100 400 100 400 100 400 100 50
    0 (1/2) 0 300 rfl
  have h2 := set_calibration_error_iff {} 100 400 500 400 100 400 100 50
    0 (1/2) 0 300 rfl
  have he : ((set_calibration {} ((100, 400), (100, 400)) (0, 1/2)
      ((100, 400), (100, 50)) (0, 300)).2 ≠ none) :=
    h1.1.mpr (Or.inl (by norm_num))
  exact ⟨he, h2.2.1 (by norm_num) (by norm_num), ((h1.2.2 he).1)⟩

/-- C3 counterexample: on the x-sorted 5-point list below the slope changes
are `[0, 0, c]` with `c > 0`, so the median change and the MAD are both `0`.
The claim's rule `|change − median| > threshold·MAD·1.4826` flags point 3 and
(4 ≥ 3 points remaining) drops it, but the code's `mad < 1e-10` guard returns
the input unchanged. -/
theorem remove_outliers_mad_guard_cex :
    remove_outliers [(0, 0), (1, 0), (2, 0), (3, 0), (4, 100)] (5/2) =
      [(0, 0), (1, 0), (2, 0), (3, 0), (4, 100)] ∧
    remove_outliers_claim [(0, 0), (1, 0), (2, 0), (3, 0), (4, 100)] (5/2) =
      [(0, 0), (1, 0), (2, 0), (4, 100)] ∧
    ([(0, 0), (1, 0), (2, 0), (4, 100)] :  List (ℚ × ℚ)) ≠
      [(0, 0), (1, 0), (2, 0), (3, 0), (4, 100)] := by
  refine ⟨?_, ?_, by simp⟩
  · norm_num [remove_outliers, slopeChangesQ, slopesQ, medianQ, epsQ,
      List.insertionSort, List.orderedInsert]
  · norm_num [remove_outliers_claim, slopeChangesQ, slopesQ, medianQ, epsQ,
      List.insertionSort, List.orderedInsert, List.range_succ,
      outlierFlag, keepUnflagged]

/-- Helper for C3: `keepUnflagged` against the mask `map f (range' k n)` is
the filter of the enumerated list by the negated flag. -/
theorem keepUnflagged_enumFrom {α : Type} :
    ∀ (ps : List α) (k : ℕ) (f : ℕ → Bool),
    keepUnflagged ps ((List.range' k ps.length).map f) =
      ((List.enumFrom k ps).filter fun ip => !f ip.1).map Prod.snd := by
  intro ps
  induction ps with
  | nil => intro k f; rfl
  | cons p ps ih =>
      intro k f
      simp only [List.length_cons, List.range'_succ, List.map_cons,
        List.enumFrom_cons, List.filter_cons, keepUnflagged]
      by_cases hb : f k
      · simp [hb, ih]
      · simp [hb, ih]

/-- C3 (amended): for every x-sorted input list of at least 5 points,
`remove_outliers` computes adjacent slopes (as `Δy/(Δx + 1e-10)`), absolute
slope changes, their median and MAD; when the MAD is below `1e-10` it
returns the input unchanged; otherwise it flags point `i+1` exactly when
`|slope-change_i − median| > threshold·MAD·1.4826`, drops the flagged
points, and returns the original list unchanged when dropping would leave 3
or fewer points. -/
theorem remove_outliers_characterization (points : List (ℚ × ℚ)) (t : ℚ)
    (h5 : 5 ≤ points.length)
    (hsort : points.Pairwise (fun a b => a.1 ≤ b.1)) :
    (medianQ ((slopeChangesQ points).map
        (fun c => |c - medianQ (slopeChangesQ points)|)) < epsQ →
      remove_outliers points t = points) ∧
    (¬ medianQ ((slopeChangesQ points).map
        (fun c => |c - medianQ (slopeChangesQ points)|)) < epsQ →
      remove_outliers points t =
        (let med := medianQ (slopeChangesQ points)
         let mad := medianQ ((slopeChangesQ points).map fun c => |c - med|)
         let cleaned := ((points.enum.filter fun ip =>
             !(outlierFlag (slopeChangesQ points) med mad t ip.1)).map
               Prod.snd)
         if 3 < cleaned.length then cleaned else points)) ∧
    (∀ j, outlierFlag (slopeChangesQ points)
        (medianQ (slopeChangesQ points))
        (medianQ ((slopeChangesQ points).map
          (fun c => |c - medianQ (slopeChangesQ points)|))) t j = true ↔
      ∃ i c, j = i + 1 ∧ (slopeChangesQ points).get? i = some c ∧
        |c - medianQ (slopeChangesQ points)| >
          t * medianQ ((slopeChangesQ points).map
            (fun c => |c - medianQ (slopeChangesQ points)|)) *
          (14826 / 10000)) := by
  refine ⟨?_, ?_, ?_⟩
  · intro hmad
    simp only [remove_outliers]
    rw [if_neg (by omega), if_pos hmad]
  · intro hmad
    simp only [remove_outliers]
    rw [if_neg (by omega), if_neg hmad]
    have hk := keepUnflagged_enumFrom points 0
      (outlierFlag (slopeChangesQ points)
        (medianQ (slopeChangesQ points))
        (medianQ ((slopeChangesQ points).map
          fun c => |c - medianQ (slopeChangesQ points)|)) t)
    rw [← List.range_eq_range'] at hk
    rw [show List.enumFrom 0 points = points.enum from rfl] at hk
    simp only [hk]
  · intro j
    cases j with
    | zero =>
        simp only [outlierFlag]
        constructor
        · intro h; exact absurd h (by simp)
        · rintro ⟨i, c, hj, _⟩; exact absurd hj (by omega)
    | succ i =>
        simp only [outlierFlag]
        cases hc : (slopeChangesQ points).get? i with
        | none =>
            constructor
            · intro h; exact absurd h (by simp)
            · rintro ⟨i', c, hj, hc', _⟩
              have : i' = i := by omega
              subst this; rw [hc] at hc'; exact absurd hc' (by simp)
        | some c =>
            constructor
            · intro h
              exact ⟨i, c, rfl, hc, by simpa using h⟩
            · rintro ⟨i', c', hj, hc', hgt⟩
              have : i' = i := by omega
              subst this; rw [hc] at hc'
              cases hc'; simpa using hgt

/-- Witness for C3 at a concrete x-sorted 5-point list whose slope changes
are all zero, so the MAD guard branch applies. -/
theorem remove_outliers_characterization_witness :
    remove_outliers [(0, 0), (1, 1), (2, 2), (3, 3), (4, 4)] (5/2) =
      [(0, 0), (1, 1), (2, 2), (3, 3), (4, 4)] := by
  apply (remove_outliers_characterization
    [(0, 0), (1, 1), (2, 2), (3, 3), (4, 4)] (5/2) (by norm_num)
    (by norm_num [List.pairwise_cons])).1
  norm_num [slopeChangesQ, slopesQ, medianQ, epsQ,
    List.insertionSort, List.orderedInsert]

/-- Helper for C9: if the mask ends with `false` (and has the length of the
list), `keepUnflagged` keeps the last element and in particular is
nonempty. -/
theorem keepUnflagged_getLast {α : Type} :
    ∀ (ps : List α) (bs : List Bool), ps ≠ [] → bs.length = ps.length →
    bs.getLast? = some false →
    keepUnflagged ps bs ≠ [] ∧
      (keepUnflagged ps bs).getLast? = ps.getLast? := by
  intro ps
  induction ps with
  | nil => intro bs h; exact absurd rfl h
  | cons p ps ih =>
      intro bs _ hlen hlast
      match bs with
      | [] => simp at hlen
      | b :: bs =>
        cases ps with
        | nil =>
            match bs with
            | [] =>
              simp only [List.getLast?_singleton, Option.some.injEq] at hlast
              subst hlast
              simp [keepUnflagged]
            | _ :: _ => simp at hlen
        | cons q ps' =>
            have hbs : bs ≠ [] := by
              intro h; subst h; simp at hlen
            obtain ⟨c, cs, hcs⟩ := List.exists_cons_of_ne_nil hbs
            subst hcs
            have hlast' : (c :: cs).getLast? = some false := by
              rwa [List.getLast?_cons_cons] at hlast
            have hlen' : (c :: cs).length = (q :: ps').length := by
              simpa using hlen
            obtain ⟨hne, hl⟩ := ih (c :: cs) (by simp) hlen' hlast'
            obtain ⟨k, ks, hks⟩ := List.exists_cons_of_ne_nil hne
            cases b with
            | true =>
                have hred : keepUnflagged (p :: q :: ps') (true :: c :: cs) =
                    keepUnflagged (q :: ps') (c :: cs) := by
                  simp [keepUnflagged]
                refine ⟨by rw [hred]; exact hne, ?_⟩
                rw [hred, List.getLast?_cons_cons]
                exact hl
            | false =>
                have hred : keepUnflagged (p :: q :: ps') (false :: c :: cs) =
                    p :: keepUnflagged (q :: ps') (c :: cs) := by
                  simp [keepUnflagged]
                refine ⟨by simp [hred], ?_⟩
                rw [hred, hks, List.getLast?_cons_cons,
                  List.getLast?_cons_cons]
                rw [hks] at hl
                exact hl

/-- Helper for C9: the slope-change list has length `n - 2`. -/
theorem slopeChangesQ_length (points : List (ℚ × ℚ)) :
    (slopeChangesQ points).length = points.length - 2 := by
  simp only [slopeChangesQ, slopesQ, List.length_zipWith, List.length_tail]
  omega

/-- C9: `remove_outliers` never removes the first or the last point: for
every input list the first and last elements of the output equal the first
and last elements of the input. -/
theorem remove_outliers_preserves_endpoints (points : List (ℚ × ℚ))
    (t : ℚ) :
    (remove_outliers points t).head? = points.head? ∧
    (remove_outliers points t).getLast? = points.getLast? := by
  simp only [remove_outliers]
  split_ifs with h1 h2 h3
  · exact ⟨rfl, rfl⟩
  · exact ⟨rfl, rfl⟩
  · -- the kept-points branch: the mask is `false` at index 0 and at the
    -- last index, because flags only land on indices `i+1 ≤ n-2`
    set f := outlierFlag (slopeChangesQ points)
      (medianQ (slopeChangesQ points))
      (medianQ ((slopeChangesQ points).map
        fun c => |c - medianQ (slopeChangesQ points)|)) t with hf
    obtain ⟨m, hm⟩ : ∃ m, points.length = m + 1 := ⟨points.length - 1, by omega⟩
    obtain ⟨p0, rest, hrest⟩ := List.exists_cons_of_ne_nil
      (show points ≠ [] by intro h; rw [h] at hm; simp at hm)
    constructor
    · -- head
      rw [hrest]
      have hstep : (List.range (p0 :: rest).length).map f =
          f 0 :: (List.range rest.length).map (fun i => f (i + 1)) := by
        simp only [List.length_cons, List.range_succ_eq_map, List.map_cons,
          List.map_map]
        rfl
      rw [hstep, show f 0 = false from rfl]
      simp [keepUnflagged]
    · -- last
      have hmask_len : ((List.range points.length).map f).length =
          points.length := by simp
      have hfm : f m = false := by
        cases m with
        | zero => rfl
        | succ i =>
            have hnone : (slopeChangesQ points).get? i = none := by
              rw [List.get?_eq_none, slopeChangesQ_length]
              omega
            show outlierFlag _ _ _ _ (i + 1) = false
            simp only [outlierFlag, hnone]
      have hmask_last : ((List.range points.length).map f).getLast? =
          some false := by
        rw [hm, List.range_succ, List.map_append]
        simp only [List.map_cons, List.map_nil, List.getLast?_concat, hfm]
      exact (keepUnflagged_getLast points ((List.range points.length).map f)
        (by rw [hrest]; simp) hmask_len hmask_last).2
  · exact ⟨rfl, rfl⟩

/-- C6 counterexample: for the grayscale target HSV (0,0,100) with
tolerance 20, a pixel of saturation 200 inside the V window is excluded by
the code's mask (S upper bound 100) but included by the claim's wide-open
S range. -/
theorem mask_bounds_saturation_cex :
    inRangeHSV (create_mask_bounds 0 0 100 20) 0 200 100 = false ∧
    inRangeHSV (mask_bounds_claim 0 0 100 20) 0 200 100 = true ∧
    create_mask_bounds 0 0 100 20 ≠ mask_bounds_claim 0 0 100 20 := by
  refine ⟨?_, ?_, ?_⟩ <;> decide

/-- C6 (amended): both the mask of `extract_curve` and the mask of
`create_mask_from_color` use the same per-channel inclusive-range bounds;
when the target color is grayscale (saturation < 30) the H range is wide
open (`[0,179]`), the S range is `[0,100]`, and the V window is
target ± tolerance (clamped to `[0,255]`); when chromatic, the H tolerance
is `min(tolerance, 15)`, the S tolerance `tolerance+10`, the V tolerance
`tolerance+20`, and the S and V lower bounds are each floored at 30. -/
theorem mask_bounds_characterization (h s v tol : ℤ) :
    extract_curve_bounds h s v tol = create_mask_bounds h s v tol ∧
    (s < 30 → create_mask_bounds h s v tol =
      ((0, 0, max 0 (v - tol)), (179, 100, min 255 (v + tol)))) ∧
    (¬ s < 30 → create_mask_bounds h s v tol =
      ((max 0 (h - min tol 15), max 30 (s - (tol + 10)),
          max 30 (v - (tol + 20))),
       (min 179 (h + min tol 15), min 255 (s + (tol + 10)),
          min 255 (v + (tol + 20))))) ∧
    (∀ ph ps pv : ℤ,
      inRangeHSV (create_mask_bounds h s v tol) ph ps pv = true ↔
        ((create_mask_bounds h s v tol).1.1 ≤ ph ∧
          ph ≤ (create_mask_bounds h s v tol).2.1 ∧
         (create_mask_bounds h s v tol).1.2.1 ≤ ps ∧
          ps ≤ (create_mask_bounds h s v tol).2.2.1 ∧
         (create_mask_bounds h s v tol).1.2.2 ≤ pv ∧
          pv ≤ (create_mask_bounds h s v tol).2.2.2)) := by
  refine ⟨?_, ?_, ?_, ?_⟩
  · by_cases hs : s < 30 <;>
      simp [extract_curve_bounds, create_mask_bounds, hs]
  · intro hs; simp [create_mask_bounds, hs]
  · intro hs; simp [create_mask_bounds, hs]
  · intro ph ps pv
    simp [inRangeHSV]

/-- Witness for C6 at a grayscale target (0,10,100) and a chromatic target
(100,200,200), both with tolerance 20. -/
theorem mask_bounds_characterization_witness :
    create_mask_bounds 0 10 100 20 = ((0, 0, 80), (179, 100, 120)) ∧
    create_mask_bounds 100 200 200 20 =
      ((85, 170, 160), (115, 230, 240)) ∧
    inRangeHSV (create_mask_bounds 100 200 200 20) 90 180 170 = true := by
  have h1 := (mask_bounds_characterization 0 10 100 20).2.1 (by decide)
  have h2 := (mask_bounds_characterization 100 200 200 20).2.2.1 (by decide)
  refine ⟨by rw [h1]; decide, by rw [h2]; decide, ?_⟩
  exact ((mask_bounds_characterization 100 200 200 20).2.2.2 90 180 170).mpr
    (by rw [h2] <;> decide)

/-- Helper: `savgol2` has one output per input sample. -/
theorem savgol2_length (ys : List ℚ) (w : ℕ) :
    (savgol2 ys w).length = ys.length := by
  simp [savgol2]

/-- Helper (shared by C10 and C7): `smooth_curve` keeps the length and the
first components of its input. -/
theorem smooth_curve_shape (points : List (ℚ × ℚ)) (window : ℕ) :
    (smooth_curve points window).length = points.length ∧
    (smooth_curve points window).map Prod.fst = points.map Prod.fst := by
  simp only [smooth_curve, smoothCurveWith]
  by_cases h1 : points.length < window
  · rw [if_pos h1]; exact ⟨rfl, rfl⟩
  rw [if_neg h1]
  by_cases h2 : min (oddify window) (points.length - 2) < 3
  · rw [if_pos h2]; exact ⟨rfl, rfl⟩
  rw [if_neg h2]
  cases hsg : savgol_filter_model (points.map Prod.snd)
      (min (oddify window) (points.length - 2)) with
  | none => exact ⟨rfl, rfl⟩
  | some ysm =>
      have hlen : ysm.length = points.length := by
        simp only [savgol_filter_model] at hsg
        split_ifs at hsg
        all_goals
          try replace hsg := Option.some.inj hsg
        all_goals rw [← hsg, savgol2_length, List.length_map]
      constructor
      · show ((points.map Prod.fst).zip ysm).length = points.length
        simp [hlen]
      · show ((points.map Prod.fst).zip ysm).map Prod.fst =
          points.map Prod.fst
        rw [List.map_fst_zip]
        simp [hlen]

/-- Helper: `oddify` always yields an odd number. -/
theorem odd_oddify (n : ℕ) : Odd (oddify n) := by
  unfold oddify
  split_ifs with h <;> (rw [Nat.odd_iff]; omega)

/-- Helper: for an odd base window `k ≤ n`, the clamped-and-oddified window
stays within the data length `n`. -/
theorem oddify_window_le (n w k : ℕ) (hkodd : k % 2 = 1) (hk : k ≤ n) :
    oddify (max k (min w (n / 3))) ≤ n := by
  unfold oddify
  rcases Nat.le_total k (min w (n / 3)) with h | h
  · rw [Nat.max_eq_right h]
    have h1 : min w (n / 3) ≤ n / 3 := Nat.min_le_right _ _
    have h2 : k ≤ min w (n / 3) := h
    split_ifs with he <;> omega
  · rw [Nat.max_eq_left h]
    split_ifs with he <;> omega

/-- Helper: `sortByX` preserves the length. -/
theorem sortByX_length (ps : List (ℚ × ℚ)) :
    (sortByX ps).length = ps.length :=
  (List.perm_insertionSort _ ps).length_eq

/-- C2: the curve smoother of the system supports four smoothing methods:
the centered moving average, the inverse-distance-weighted average, and
exponential smoothing with a configurable factor (clamped to `[0.1,0.9]`)
are the `moving_average`, `savitzky_golay` and `exponential` branches of
`AIAssistant._apply_smoothing` (window forced odd and clamped to a third of
the data length, hence to the data length), and degree-2 polynomial
(Savitzky–Golay) smoothing is `ImageProcessor.smooth_curve` (window forced
odd, clamped to the data length − 2); when the Savitzky–Golay stage fails
numerically, `smooth_curve` returns the unsmoothed input list unchanged
rather than raising. -/
theorem curve_smoother_methods (points : List (ℚ × ℚ)) (w : ℕ) (a : ℚ)
    (h3 : 3 ≤ points.length) :
    (Odd (oddify (max 3 (min w ((sortByX points).length / 3)))) ∧
     oddify (max 3 (min w ((sortByX points).length / 3))) ≤ points.length ∧
     apply_smoothing points "moving_average" w a =
       centered_moving_average (sortByX points)
         (oddify (max 3 (min w ((sortByX points).length / 3))))) ∧
    (Odd (oddify (max 5 (min w ((sortByX points).length / 3)))) ∧
     (5 ≤ points.length →
       oddify (max 5 (min w ((sortByX points).length / 3))) ≤
         points.length) ∧
     apply_smoothing points "savitzky_golay" w a =
       inverse_distance_average (sortByX points)
         (oddify (max 5 (min w ((sortByX points).length / 3))))) ∧
    (1/10 ≤ max (1/10) (min (9/10) a) ∧
     max (1/10) (min (9/10) a) ≤ 9/10 ∧
     apply_smoothing points "exponential" w a =
       exp_smooth (max (1/10) (min (9/10) a)) (sortByX points)) ∧
    (∀ (ps : List (ℚ × ℚ)) (win : ℕ) (sg : List ℚ → ℕ → Option (List ℚ)),
      sg (ps.map Prod.snd) (min (oddify win) (ps.length - 2)) = none →
        smoothCurveWith sg ps win = ps) ∧
    (∀ (ps : List (ℚ × ℚ)) (win : ℕ),
      ¬ ps.length < win →
      3 ≤ min (oddify win) (ps.length - 2) →
      (min (oddify win) (ps.length - 2)) % 2 = 1 →
      smooth_curve ps win =
        (ps.map Prod.fst).zip (savgol2 (ps.map Prod.snd)
          (min (oddify win) (ps.length - 2)))) := by
  have hlen3 : ¬ points.length < 3 := by omega
  have hsl : (sortByX points).length = points.length := sortByX_length points
  refine ⟨⟨odd_oddify _, ?_, ?_⟩, ⟨odd_oddify _, ?_, ?_⟩, ?_, ?_, ?_⟩
  · rw [hsl]
    exact oddify_window_le points.length w 3 (by norm_num) h3
  · simp only [apply_smoothing, centered_moving_average]
    rw [if_neg hlen3]
    simp
  · intro h5
    rw [hsl]
    exact oddify_window_le points.length w 5 (by norm_num) h5
  · simp only [apply_smoothing, inverse_distance_average]
    rw [if_neg hlen3]
    simp
  · refine ⟨le_max_left _ _, max_le (by norm_num) (min_le_left _ _), ?_⟩
    simp only [apply_smoothing]
    rw [if_neg hlen3]
    simp
  · intro ps win sg hsg
    simp only [smoothCurveWith]
    by_cases hw1 : ps.length < win
    · rw [if_pos hw1]
    rw [if_neg hw1]
    by_cases hw2 : min (oddify win) (ps.length - 2) < 3
    · rw [if_pos hw2]
    rw [if_neg hw2, hsg]
  · intro ps win hw1 hw2 hodd
    simp only [smooth_curve, smoothCurveWith]
    rw [if_neg hw1, if_neg (by omega)]
    have hvalid : savgol_filter_model (ps.map Prod.snd)
        (min (oddify win) (ps.length - 2)) =
        some (savgol2 (ps.map Prod.snd)
          (min (oddify win) (ps.length - 2))) := by
      rw [savgol_filter_model, if_neg]
      push_neg
      refine ⟨by omega, ?_, by omega⟩
      rw [List.length_map]
      have := Nat.min_le_right (oddify win) (ps.length - 2)
      omega
    rw [hvalid]

/-- Witness for C2: the exponential branch at a concrete 4-point list with
factor 1/2 (inside the clamp range), and the Savitzky–Golay path of
`smooth_curve` failing on an effective even window (6 points, window 5
clamps to 4), returning the input unchanged. -/
theorem curve_smoother_methods_witness :
    apply_smoothing [(0, 0), (1, 2), (2, 0), (3, 2)] "exponential" 5 (1/2) =
      exp_smooth (1/2) (sortByX [(0, 0), (1, 2), (2, 0), (3, 2)]) ∧
    smoothCurveWith (fun _ _ => none)
      [(0, 0), (1, 2), (2, 0), (3, 2), (4, 0), (5, 2)] 5 =
      [(0, 0), (1, 2), (2, 0), (3, 2), (4, 0), (5, 2)] := by
  have h := curve_smoother_methods [(0, 0), (1, 2), (2, 0), (3, 2)] 5 (1/2)
    (by norm_num)
  constructor
  · have he := h.2.2.1.2.2
    rw [show max (1/10 : ℚ) (min (9/10) (1/2)) = 1/2 by norm_num] at he
    exact he
  · exact h.2.2.2.1 [(0, 0), (1, 2), (2, 0), (3, 2), (4, 0), (5, 2)] 5
      (fun _ _ => none) rfl

/-- C10: `smooth_curve` preserves the number of points and the x-coordinate
of every point: for every input list and window, the output has the same
length and the same list of first components; only y-values change. -/
theorem smooth_curve_preserves_length_and_x (points : List (ℚ × ℚ))
    (window : ℕ) :
    (smooth_curve points window).length = points.length ∧
    (smooth_curve points window).map Prod.fst = points.map Prod.fst :=
  smooth_curve_shape points window

/-- Helper: `keepUnflagged` yields a sublist of the input. -/
theorem keepUnflagged_sublist {α : Type} :
    ∀ (ps : List α) (bs : List Bool), (keepUnflagged ps bs).Sublist ps := by
  intro ps
  induction ps with
  | nil => intro bs; cases bs <;> simp [keepUnflagged]
  | cons p ps ih =>
      intro bs
      cases bs with
      | nil => simp [keepUnflagged]
      | cons b bs =>
          simp only [keepUnflagged]
          split_ifs with hb
          · exact (ih bs).cons p
          · exact (ih bs).cons₂ p

/-- Helper: `remove_outliers` returns a sublist of its input. -/
theorem remove_outliers_sublist (points : List (ℚ × ℚ)) (t : ℚ) :
    (remove_outliers points t).Sublist points := by
  simp only [remove_outliers]
  split_ifs
  · exact List.Sublist.refl _
  · exact List.Sublist.refl _
  · exact keepUnflagged_sublist _ _
  · exact List.Sublist.refl _

/-- Helper: `sortByX` sorts ascending by the first component. -/
theorem sorted_sortByX (ps : List (ℚ × ℚ)) :
    (sortByX ps).Pairwise (fun a b => a.1 ≤ b.1) :=
  List.sorted_insertionSort _ ps

/-- Helper: a list with the same first components as an x-sorted list is
x-sorted. -/
theorem pairwise_fst_transfer {l l' : List (ℚ × ℚ)}
    (h : l'.map Prod.fst = l.map Prod.fst)
    (hp : l.Pairwise fun a b => a.1 ≤ b.1) :
    l'.Pairwise fun a b => a.1 ≤ b.1 := by
  have h1 : (l.map Prod.fst).Pairwise (· ≤ ·) := List.pairwise_map.mpr hp
  rw [← h] at h1
  exact List.pairwise_map.mp h1

/-- Helper: mapping over the enumeration while using only the entries. -/
theorem enum_map_comp_snd {α β : Type} (l : List α) (g : α → β) :
    l.enum.map (fun ix => g ix.2) = l.map g := by
  have h1 : (fun ix : ℕ × α => g ix.2) = g ∘ Prod.snd := rfl
  rw [h1, ← List.map_map, List.enum_map_snd]

/-- C8: when segmentation finds nothing usable — no connected component
survives the area filter `area ≥ max(50, 0.1 × largest-area)`, or the
surviving foreground pixel count is below 10, or the skeleton is empty —
`extract_curve` returns an empty list as a successful result and never
raises, provided calibration is set. -/
theorem extract_curve_empty_on_nothing_found
    (p : Processor) (comps : List (List (ℤ × ℤ)))
    (skeletonize : List (ℤ × ℤ) → List (ℤ × ℤ)) (ds : ℕ) (smooth : Bool)
    (hc : p.calibration_set = true)
    (hnothing :
      (∀ c ∈ comps, (c.length : ℚ) <
        max 50 ((((comps.map List.length).foldr max 0 : ℕ) : ℚ) * (1/10))) ∨
      (maskPixels comps).length < 10 ∨
      skeletonize (maskPixels comps) = []) :
    extract_curve_tail p comps skeletonize ds smooth = .ok [] := by
  simp only [extract_curve_tail]
  rw [if_neg (by simp [hc])]
  by_cases hce : comps.isEmpty
  · rw [if_pos hce]
  rw [if_neg hce]
  rcases hnothing with h1 | h2 | h3
  · have hsv : survivingComponents comps = [] := by
      simp only [survivingComponents]
      rw [List.filter_eq_nil]
      intro c hcm
      simpa using not_le.mpr (h1 c hcm)
    have hmp : maskPixels comps = [] := by
      simp [maskPixels, hsv]
    rw [if_pos (by rw [hmp]; norm_num)]
  · rw [if_pos h2]
  · by_cases h10 : (maskPixels comps).length < 10
    · rw [if_pos h10]
    rw [if_neg h10]
    simp [h3]

/-- Witness for C8: a calibrated processor and a single 1-pixel component,
rejected by the area filter. -/
theorem extract_curve_empty_on_nothing_found_witness :
    extract_curve_tail { calibration_set := true } [[(0, 0)]]
      (fun s => s) 1 true = .ok [] := by
  apply extract_curve_empty_on_nothing_found _ _ _ _ _ rfl
  left
  intro c hcm
  simp only [List.mem_singleton] at hcm
  subst hcm
  norm_num

/-- Helper for C7: the outlier-removal and smoothing stages of the pipeline
preserve the ascending-by-x order of the sorted physical points. -/
theorem pipeline_tail_sorted (S : List (ℚ × ℚ))
    (hS : S.Pairwise (fun a b => a.1 ≤ b.1)) (smooth : Bool) :
    (if smooth ∧
        10 < (if 5 < S.length then remove_outliers S (5/2) else S).length
      then smooth_curve
        (if 5 < S.length then remove_outliers S (5/2) else S) 5
      else (if 5 < S.length then remove_outliers S (5/2) else S)).Pairwise
      (fun a b => a.1 ≤ b.1) := by
  have h2 : (if 5 < S.length then remove_outliers S (5/2) else S).Pairwise
      (fun a b => a.1 ≤ b.1) := by
    split_ifs
    · exact List.Pairwise.sublist (remove_outliers_sublist _ _) hS
    · exact hS
  by_cases hc : smooth ∧
      10 < (if 5 < S.length then remove_outliers S (5/2) else S).length
  · rw [if_pos hc]
    exact pairwise_fst_transfer (smooth_curve_shape _ 5).2 h2
  · rw [if_neg hc]
    exact h2

/-- C7: every successful `extract_curve` result is sorted ascending by x —
the pixel points are sorted by physical x and both the outlier-removal and
the smoothing stages preserve that order — and with the default stride the
column extraction maps each unique skeleton pixel column to the median row
of that column's skeleton pixels. -/
theorem extract_curve_sorted_and_column_medians
    (p : Processor) (comps : List (List (ℤ × ℤ)))
    (skeletonize : List (ℤ × ℤ) → List (ℤ × ℤ)) (ds : ℕ) (smooth : Bool)
    (ps : List (ℚ × ℚ))
    (hok : extract_curve_tail p comps skeletonize ds smooth = .ok ps) :
    ps.Pairwise (fun a b => a.1 ≤ b.1) ∧
    (∀ pixels : List (ℤ × ℤ), columnExtract pixels 1 =
      (((pixels.map Prod.fst).dedup.insertionSort (· ≤ ·)).map fun x : ℤ =>
        ((x : ℚ), medianQ ((pixels.filter fun q => decide (q.1 = x)).map
          fun q => (q.2 : ℚ))))) := by
  constructor
  · simp only [extract_curve_tail] at hok
    by_cases hcal : ¬ p.calibration_set
    · rw [if_pos hcal] at hok
      exact Except.noConfusion hok
    rw [if_neg hcal] at hok
    by_cases hce : comps.isEmpty
    · rw [if_pos hce] at hok
      replace hok := Except.ok.inj hok; subst hok
      exact List.Pairwise.nil
    rw [if_neg hce] at hok
    by_cases h10 : (maskPixels comps).length < 10
    · rw [if_pos h10] at hok
      replace hok := Except.ok.inj hok; subst hok
      exact List.Pairwise.nil
    rw [if_neg h10] at hok
    by_cases hsk : (skeletonize (maskPixels comps)).isEmpty
    · rw [if_pos hsk] at hok
      replace hok := Except.ok.inj hok; subst hok
      exact List.Pairwise.nil
    rw [if_neg hsk] at hok
    by_cases hval : ((skeletonize (maskPixels comps)).filter fun q =>
        is_in_plot_region p (q.1 : ℚ) (q.2 : ℚ)).isEmpty
    · rw [if_pos hval] at hok
      replace hok := Except.ok.inj hok; subst hok
      exact List.Pairwise.nil
    rw [if_neg hval] at hok
    replace hok := Except.ok.inj hok; subst hok
    exact pipeline_tail_sorted _ (sorted_sortByX _) smooth
  · intro pixels
    simp only [columnExtract, Nat.max_self, Nat.mod_one, eq_self_iff_true,
      decide_True, List.filter_true]
    exact enum_map_comp_snd
      ((pixels.map Prod.fst).dedup.insertionSort (· ≤ ·))
      (fun x : ℤ => ((x : ℚ),
        medianQ ((pixels.filter fun q => decide (q.1 = x)).map
          fun q => (q.2 : ℚ))))

/-- Witness for C7: the empty-components path yields the sorted empty
result, and the column extraction of three pixels in two columns takes the
median row of the two-pixel column. -/
theorem extract_curve_sorted_and_column_medians_witness :
    List.Pairwise (fun (a b : ℚ × ℚ) => a.1 ≤ b.1) ([] : List (ℚ × ℚ)) ∧
    columnExtract [(0, 0), (0, 2), (1, 5)] 1 = [(0, 1), (1, 5)] := by
  have h := extract_curve_sorted_and_column_medians
    { calibration_set := true } [] (fun s => s) 1 true [] rfl
  refine ⟨h.1, ?_⟩
  rw [h.2 [(0, 0), (0, 2), (1, 5)]]
  norm_num [List.dedup, List.insertionSort, List.orderedInsert, medianQ]

/-- Helper: the tracer appends at most one pixel per unit of fuel. -/
theorem traceLoopR_length_le {σ : Type} (radii : List ℕ) (sc : Scorer σ)
    (w h : ℤ) (skel : List (ℤ × ℤ)) :
    ∀ (fuel : ℕ) (current : ℤ × ℤ) (momentum : σ)
      (visited acc : List (ℤ × ℤ)),
      (traceLoopR radii sc w h skel fuel current momentum visited
        acc).length ≤ acc.length + fuel := by
  intro fuel
  induction fuel with
  | zero =>
      intro current momentum visited acc
      simp [traceLoopR]
  | succ fuel ih =>
      intro current momentum visited acc
      simp only [traceLoopR]
      by_cases h1 : ¬ inGrid w h current
      · rw [if_pos h1, List.length_reverse]; omega
      rw [if_neg h1]
      by_cases h2 : current ∈ visited
      · rw [if_pos h2, List.length_reverse]; omega
      rw [if_neg h2]
      split
      · rw [List.length_reverse, List.length_cons]; omega
      · exact le_trans (ih _ _ _ _) (by rw [List.length_cons]; omega)

/-- Helper: the tracer never drops already-recorded pixels. -/
theorem traceLoopR_length_ge {σ : Type} (radii : List ℕ) (sc : Scorer σ)
    (w h : ℤ) (skel : List (ℤ × ℤ)) :
    ∀ (fuel : ℕ) (current : ℤ × ℤ) (momentum : σ)
      (visited acc : List (ℤ × ℤ)),
      acc.length ≤ (traceLoopR radii sc w h skel fuel current momentum
        visited acc).length := by
  intro fuel
  induction fuel with
  | zero =>
      intro current momentum visited acc
      simp [traceLoopR]
  | succ fuel ih =>
      intro current momentum visited acc
      simp only [traceLoopR]
      by_cases h1 : ¬ inGrid w h current
      · rw [if_pos h1, List.length_reverse]
      rw [if_neg h1]
      by_cases h2 : current ∈ visited
      · rw [if_pos h2, List.length_reverse]
      rw [if_neg h2]
      split
      · rw [List.length_reverse, List.length_cons]; omega
      · exact le_trans (by rw [List.length_cons]; omega) (ih _ _ _ _)

/-- Helper: an in-bounds unvisited current pixel is recorded. -/
theorem traceLoopR_length_ge_succ {σ : Type} (radii : List ℕ)
    (sc : Scorer σ) (w h : ℤ) (skel : List (ℤ × ℤ))
    (fuel : ℕ) (current : ℤ × ℤ) (momentum : σ)
    (visited acc : List (ℤ × ℤ))
    (hf : 1 ≤ fuel) (hin : inGrid w h current = true)
    (hnv : current ∉ visited) :
    acc.length + 1 ≤ (traceLoopR radii sc w h skel fuel current momentum
      visited acc).length := by
  obtain ⟨f, rfl⟩ : ∃ f, fuel = f + 1 := ⟨fuel - 1, by omega⟩
  simp only [traceLoopR]
  rw [if_neg (not_not_intro hin), if_neg hnv]
  split
  · rw [List.length_reverse, List.length_cons]
  · exact le_trans (by rw [List.length_cons]) (traceLoopR_length_ge _ _ _ _ _ _ _ _ _ _)

/-- Helper: the traced path never repeats a pixel. -/
theorem traceLoopR_nodup {σ : Type} (radii : List ℕ) (sc : Scorer σ)
    (w h : ℤ) (skel : List (ℤ × ℤ)) :
    ∀ (fuel : ℕ) (current : ℤ × ℤ) (momentum : σ)
      (visited acc : List (ℤ × ℤ)), acc.Nodup →
      (∀ a ∈ acc, a ∈ visited) →
      (traceLoopR radii sc w h skel fuel current momentum visited
        acc).Nodup := by
  intro fuel
  induction fuel with
  | zero =>
      intro current momentum visited acc hacc hsub
      simpa [traceLoopR] using hacc
  | succ fuel ih =>
      intro current momentum visited acc hacc hsub
      simp only [traceLoopR]
      by_cases h1 : ¬ inGrid w h current
      · rw [if_pos h1]
        simpa using hacc
      rw [if_neg h1]
      by_cases h2 : current ∈ visited
      · rw [if_pos h2]
        simpa using hacc
      rw [if_neg h2]
      have hcur : current ∉ acc := fun hmem => h2 (hsub _ hmem)
      split
      · rw [List.nodup_reverse]
        exact List.nodup_cons.mpr ⟨hcur, hacc⟩
      · apply ih
        · exact List.nodup_cons.mpr ⟨hcur, hacc⟩
        · intro a ha
          rcases List.mem_cons.mp ha with h | h
          · exact List.mem_cons.mpr (Or.inl h)
          · exact List.mem_cons.mpr (Or.inr (hsub _ h))

/-- Helper: folding `pickStep` from a candidate yields a candidate. -/
theorem foldl_pickStep_some :
    ∀ (l : List ((ℤ × ℤ) × ℚ × (ℤ × ℤ))) (b : (ℤ × ℤ) × ℚ × (ℤ × ℤ)),
    ∃ b', l.foldl pickStep (some b) = some b' ∧ (b' = b ∨ b' ∈ l) := by
  intro l
  induction l with
  | nil => intro b; exact ⟨b, rfl, Or.inl rfl⟩
  | cons c t ih =>
      intro b
      rw [List.foldl_cons]
      have hstep : pickStep (some b) c = some c ∨
          pickStep (some b) c = some b := by
        by_cases hlt : b.2.1 < c.2.1
        · exact Or.inl (by simp [pickStep, hlt])
        · exact Or.inr (by simp [pickStep, hlt])
      rcases hstep with h | h
      · rw [h]
        obtain ⟨b', hb', hc⟩ := ih c
        refine ⟨b', hb', ?_⟩
        rcases hc with rfl | hm
        · exact Or.inr (List.mem_cons_self _ _)
        · exact Or.inr (List.mem_cons.mpr (Or.inr hm))
      · rw [h]
        obtain ⟨b', hb', hc⟩ := ih b
        refine ⟨b', hb', ?_⟩
        rcases hc with rfl | hm
        · exact Or.inl rfl
        · exact Or.inr (List.mem_cons.mpr (Or.inr hm))

/-- Helper: a nonempty candidate list yields a best candidate, and it is
one of the candidates. -/
theorem pickBest_spec (cands : List ((ℤ × ℤ) × ℚ × (ℤ × ℤ)))
    (hne : cands ≠ []) : ∃ b ∈ cands, pickBest cands = some b := by
  match cands with
  | [] => exact absurd rfl hne
  | c :: t =>
      simp only [pickBest, List.foldl_cons]
      rw [show pickStep none c = some c from rfl]
      obtain ⟨b', hb', hc⟩ := foldl_pickStep_some t c
      refine ⟨b', ?_, hb'⟩
      rcases hc with rfl | hm
      · exact List.mem_cons_self _ _
      · exact List.mem_cons.mpr (Or.inr hm)

/-- Helper: every 8-neighborhood candidate is an unvisited in-grid
skeleton pixel. -/
theorem mem_neighborCands {σ : Type} (sc : Scorer σ) (m : σ) (w h : ℤ)
    (skel visited : List (ℤ × ℤ)) (x y : ℤ)
    (b : (ℤ × ℤ) × ℚ × (ℤ × ℤ))
    (hb : b ∈ neighborCands sc m w h skel visited x y) :
    inGrid w h b.1 = true ∧ b.1 ∈ skel ∧ b.1 ∉ visited := by
  simp only [neighborCands, List.mem_filterMap] at hb
  obtain ⟨d, _, heq⟩ := hb
  split_ifs at heq with hc
  cases heq
  exact hc

/-- Helper: every expanded-radius candidate is an unvisited in-grid
skeleton pixel. -/
theorem mem_expandCandsAt (w h : ℤ) (skel visited : List (ℤ × ℤ))
    (x y : ℤ) (r : ℕ) (b : (ℤ × ℤ) × ℚ × (ℤ × ℤ))
    (hb : b ∈ expandCandsAt w h skel visited x y r) :
    inGrid w h b.1 = true ∧ b.1 ∈ skel ∧ b.1 ∉ visited := by
  simp only [expandCandsAt, List.mem_filterMap] at hb
  obtain ⟨d, _, heq⟩ := hb
  split_ifs at heq with hc
  cases heq
  exact hc

/-- Helper: a candidate of the expanding search comes from one of the
searched radii. -/
theorem mem_expandLoop (w h : ℤ) (skel visited : List (ℤ × ℤ)) (x y : ℤ)
    (b : (ℤ × ℤ) × ℚ × (ℤ × ℤ)) :
    ∀ radii : List ℕ, b ∈ expandLoop w h skel visited x y radii →
      ∃ r ∈ radii, b ∈ expandCandsAt w h skel visited x y r := by
  intro radii
  induction radii with
  | nil => intro hb; exact absurd hb (List.not_mem_nil b)
  | cons r0 rest ih =>
      intro hb
      simp only [expandLoop] at hb
      by_cases he : (expandCandsAt w h skel visited x y r0).isEmpty
      · rw [if_pos he] at hb
        obtain ⟨r, hr, hmem⟩ := ih hb
        exact ⟨r, List.mem_cons.mpr (Or.inr hr), hmem⟩
      · rw [if_neg he] at hb
        exact ⟨r0, List.mem_cons.mpr (Or.inl rfl), hb⟩

/-- Helper: the expanding search succeeds when some searched radius has a
candidate. -/
theorem expandLoop_ne_nil (w h : ℤ) (skel visited : List (ℤ × ℤ))
    (x y : ℤ) :
    ∀ (radii : List ℕ) (r : ℕ), r ∈ radii →
      expandCandsAt w h skel visited x y r ≠ [] →
      expandLoop w h skel visited x y radii ≠ [] := by
  intro radii
  induction radii with
  | nil => intro r hr; exact absurd hr (List.not_mem_nil r)
  | cons r0 rest ih =>
      intro r hr hne
      simp only [expandLoop]
      by_cases he : (expandCandsAt w h skel visited x y r0).isEmpty
      · rw [if_pos he]
        rcases List.mem_cons.mp hr with rfl | hr'
        · exact absurd (List.isEmpty_iff.mp he) hne
        · exact ih r hr' hne
      · rw [if_neg he]
        intro hnil
        exact he (by rw [hnil]; rfl)

/-- Helper: a unit offset other than the origin is an 8-neighborhood
direction. -/
theorem mem_directions8_of (dx dy : ℤ) (h1 : -1 ≤ dx) (h2 : dx ≤ 1)
    (h3 : -1 ≤ dy) (h4 : dy ≤ 1) (h5 : ¬(dx = 0 ∧ dy = 0)) :
    (dx, dy) ∈ directions8 := by
  simp only [directions8, List.mem_cons, List.not_mem_nil, or_false,
    Prod.mk.injEq]
  omega

/-- Helper: a nonzero offset within the radius-`r` square is enumerated by
the expanding search. -/
theorem mem_squareOffsets_of (r : ℕ) (dx dy : ℤ) (h1 : -(r : ℤ) ≤ dx)
    (h2 : dx ≤ r) (h3 : -(r : ℤ) ≤ dy) (h4 : dy ≤ r)
    (h5 : ¬(dx = 0 ∧ dy = 0)) : (dx, dy) ∈ squareOffsets r := by
  unfold squareOffsets
  have hbx : (dx + (r : ℤ)).toNat < 2 * r + 1 := by omega
  have hby : (dy + (r : ℤ)).toNat < 2 * r + 1 := by omega
  have hex : ((dx + (r : ℤ)).toNat : ℤ) - r = dx := by omega
  have hey : ((dy + (r : ℤ)).toNat : ℤ) - r = dy := by omega
  apply List.mem_flatMap.mpr
  refine ⟨dx, List.mem_map.mpr ⟨(dx + (r : ℤ)).toNat,
    List.mem_range.mpr hbx, hex⟩, ?_⟩
  apply List.mem_filterMap.mpr
  refine ⟨dy, List.mem_map.mpr ⟨(dy + (r : ℤ)).toNat,
    List.mem_range.mpr hby, hey⟩, ?_⟩
  rw [if_neg h5]

/-- Helper: an unvisited in-grid skeleton pixel in the radius-`r` square
around `(x, y)` is an expanded-radius candidate. -/
theorem expandCandsAt_mem_of (w h : ℤ) (skel visited : List (ℤ × ℤ))
    (x y : ℤ) (r : ℕ) (q : ℤ × ℤ)
    (h1 : -(r : ℤ) ≤ q.1 - x) (h2 : q.1 - x ≤ r)
    (h3 : -(r : ℤ) ≤ q.2 - y) (h4 : q.2 - y ≤ r)
    (h5 : ¬(q.1 - x = 0 ∧ q.2 - y = 0))
    (hin : inGrid w h q = true) (hskel : q ∈ skel) (hnv : q ∉ visited) :
    (q, (1/2 : ℚ), (q.1 - x, q.2 - y)) ∈
      expandCandsAt w h skel visited x y r := by
  simp only [expandCandsAt, List.mem_filterMap]
  refine ⟨(q.1 - x, q.2 - y),
    mem_squareOffsets_of r _ _ h1 h2 h3 h4 h5, ?_⟩
  have hq : (x + (q.1 - x), y + (q.2 - y)) = q := by
    rw [Prod.ext_iff]
    constructor <;> simp <;> ring
  rw [hq, if_pos ⟨hin, hskel, hnv⟩]

/-- C5 counterexample: a skeleton of two pixels at Chebyshev distance 5.
The code's expanded search (`range(2, 5)`, radii 2–4) never sees the second
pixel and the trace stops after the start pixel; the claim's radius-2-to-5
search reaches it. -/
theorem momentum_trace_radius_cex :
    momentum_trace unitScorer 10 1 [(0, 0), (5, 0)] (0, 0) = [(0, 0)] ∧
    momentum_trace_claim unitScorer 10 1 [(0, 0), (5, 0)] (0, 0) =
      [(0, 0), (5, 0)] ∧
    ([(0, 0)] : List (ℤ × ℤ)) ≠ [(0, 0), (5, 0)] := by
  refine ⟨by decide, by decide, by decide⟩

/-- C5 (amended): for every skeleton, start point and scoring function, the
momentum tracer terminates with at most `2 × (skeleton pixel count)`
recorded pixels, never visits the same pixel twice, and searches an
expanded radius of 2 to 4 pixels when no unvisited 8-neighbor exists: if an
unvisited in-grid skeleton pixel lies within Chebyshev distance 4 of the
in-grid start, the trace does not stop at the start pixel.  The result is a
total function of its inputs, with ties between equal-score candidates
broken by the fixed enumeration order in `pickBest`, so it is
deterministic. -/
theorem momentum_trace_props {σ : Type} (sc : Scorer σ) (w h : ℤ)
    (skel : List (ℤ × ℤ)) (start : ℤ × ℤ) :
    (momentum_trace sc w h skel start).Nodup ∧
    (momentum_trace sc w h skel start).length ≤ 2 * skel.length ∧
    (inGrid w h start = true →
      (∃ q ∈ skel, inGrid w h q = true ∧ q ≠ start ∧
        (q.1 - start.1).natAbs ≤ 4 ∧ (q.2 - start.2).natAbs ≤ 4) →
      2 ≤ (momentum_trace sc w h skel start).length) := by
  refine ⟨?_, ?_, ?_⟩
  · exact traceLoopR_nodup [2, 3, 4] sc w h skel (2 * skel.length) start
      sc.init [] [] List.nodup_nil (by simp)
  · simpa using traceLoopR_length_le [2, 3, 4] sc w h skel
      (2 * skel.length) start sc.init [] []
  · rintro hin ⟨q, hq, hqin, hqne, hqd1, hqd2⟩
    have hlen : 1 ≤ skel.length := List.length_pos.mpr
      (List.ne_nil_of_mem hq)
    obtain ⟨f, hf⟩ : ∃ f, 2 * skel.length = f + 2 :=
      ⟨2 * skel.length - 2, by omega⟩
    simp only [momentum_trace]
    rw [hf]
    simp only [traceLoopR]
    rw [if_neg (not_not_intro hin), if_neg (List.not_mem_nil start)]
    have hqnv : q ∉ [start] := by
      simp only [List.mem_singleton]
      exact hqne
    have hoff : ¬(q.1 - start.1 = 0 ∧ q.2 - start.2 = 0) := by
      rintro ⟨ha, hb⟩
      exact hqne (by rw [Prod.ext_iff]; omega)
    set c8 := neighborCands sc sc.init w h skel [start] start.1 start.2
      with hc8
    set cands := if c8.isEmpty then
      expandLoop w h skel [start] start.1 start.2 [2, 3, 4] else c8
      with hcands
    have hne : cands ≠ [] := by
      rw [hcands]
      by_cases h8 : c8.isEmpty
      · rw [if_pos h8]
        apply expandLoop_ne_nil w h skel [start] start.1 start.2
          [2, 3, 4] 4 (by simp)
        exact List.ne_nil_of_mem (expandCandsAt_mem_of w h skel [start]
          start.1 start.2 4 q (by omega) (by omega) (by omega) (by omega)
          hoff hqin hq hqnv)
      · rw [if_neg h8]
        intro hnil
        exact h8 (by rw [hnil]; rfl)
    obtain ⟨best, hbmem, hpb⟩ := pickBest_spec cands hne
    have hbprops : inGrid w h best.1 = true ∧ best.1 ∈ skel ∧
        best.1 ∉ [start] := by
      rw [hcands] at hbmem
      by_cases h8 : c8.isEmpty
      · rw [if_pos h8] at hbmem
        obtain ⟨r, _, hmem⟩ := mem_expandLoop w h skel [start]
          start.1 start.2 best [2, 3, 4] hbmem
        exact mem_expandCandsAt w h skel [start] start.1 start.2 r
          best hmem
      · rw [if_neg h8] at hbmem
        rw [hc8] at hbmem
        exact mem_neighborCands sc sc.init w h skel [start]
          start.1 start.2 best hbmem
    rw [hpb]
    exact traceLoopR_length_ge_succ [2, 3, 4] sc w h skel (f + 1) best.1
      (sc.update sc.init best.2.2) [start] [start] (by omega)
      hbprops.1 hbprops.2.2

/-- Witness for C5 at a 3×1 grid with two adjacent skeleton pixels: the
trace visits both, without repetition and within the budget. -/
theorem momentum_trace_props_witness :
    (momentum_trace unitScorer 3 1 [(0, 0), (1, 0)] (0, 0)).Nodup ∧
    (momentum_trace unitScorer 3 1 [(0, 0), (1, 0)] (0, 0)).length ≤ 4 ∧
    2 ≤ (momentum_trace unitScorer 3 1 [(0, 0), (1, 0)] (0, 0)).length := by
  have h := momentum_trace_props unitScorer 3 1 [(0, 0), (1, 0)] (0, 0)
  exact ⟨h.1, by simpa using h.2.1,
    h.2.2 (by decide) ⟨(1, 0), by decide, by decide, by decide,
      by decide, by decide⟩⟩
